import Mathlib

/-!
Verification of the time-zone conversion engine and zone-catalog helpers of
the TimeZoneApp repository.

The repository's own source (`src/App.js`) contains the zone catalog
(`COMMON_TIMEZONES`, `getAllTimezones`), the catalog filter
(`filteredZones`), and the offset display formatter (`formatOffset`); the
conversion engine itself (offset resolution against the IANA tzdb and the
civil-time / instant arithmetic) is delegated to the Luxon library and is
therefore modelled here from the specification.  Instants are epoch
milliseconds (`Int`), offsets are minutes from UTC (`Int`), and civil times
are second-granularity proleptic-Gregorian calendar values.
-/

namespace TimeZoneApp

/-- A zone-naive calendar date/time: year, month (1-12), day (1-31, valid
for month/year), hour (0-23), minute (0-59), second (0-59). -/
structure CivilTime where
  year : Int
  month : Int
  day : Int
  hour : Int
  minute : Int
  second : Int
deriving DecidableEq, Repr

/-- Gregorian leap-year rule. -/
def isLeap (y : Int) : Bool :=
  y % 4 == 0 && (y % 100 != 0 || y % 400 == 0)

/-- Number of days in a month of a given year. -/
def daysInMonth (y m : Int) : Int :=
  if m = 2 then (if isLeap y then 29 else 28)
  else if m = 4 ∨ m = 6 ∨ m = 9 ∨ m = 11 then 30
  else 31

/-- Calendar validity of a civil time (month in range, day valid for the
month and year, time-of-day components in range). -/
def isValidCivil (c : CivilTime) : Bool :=
  1 ≤ c.month && c.month ≤ 12 &&
  1 ≤ c.day && c.day ≤ daysInMonth c.year c.month &&
  0 ≤ c.hour && c.hour ≤ 23 &&
  0 ≤ c.minute && c.minute ≤ 59 &&
  0 ≤ c.second && c.second ≤ 59

/-- Days from 1970-01-01 to the given proleptic-Gregorian date (negative for
earlier dates).  Standard era/year-of-era decomposition; all divisions are
Euclidean (Lean's `Int` division), which on the relevant nonnegative
operands agrees with floor division. -/
def daysFromCivil (y m d : Int) : Int :=
  let y' := if m ≤ 2 then y - 1 else y
  let era := y' / 400
  let yoe := y' - era * 400
  let mp := (m + 9) % 12
  let doy := (153 * mp + 2) / 5 + d - 1
  let doe := yoe * 365 + yoe / 4 - yoe / 100 + doy
  era * 146097 + doe - 719468

/-- Days from the start of a 400-year era to the start of shifted year `y`
of that era (the shifted year runs March through February). -/
def dys (y : Int) : Int :=
  365 * y + y / 4 - y / 100 + y / 400

/-- Inverse of `daysFromCivil`: the proleptic-Gregorian date (year, month,
day) that lies `z` days after 1970-01-01.  The year of era is located by a
first guess `doe / 366` followed by at most one correction step. -/
def civilFromDays (z : Int) : Int × Int × Int :=
  let z' := z + 719468
  let era := z' / 146097
  let doe := z' - era * 146097
  let y1 := doe / 366
  let yoe := if dys (y1 + 1) ≤ doe then y1 + 1 else y1
  let doy := doe - dys yoe
  let mp := (5 * doy + 2) / 153
  let d := doy - (153 * mp + 2) / 5 + 1
  let m := if mp < 10 then mp + 3 else mp - 9
  (if m ≤ 2 then yoe + era * 400 + 1 else yoe + era * 400, m, d)

/-- Decompose an instant (epoch milliseconds) into its civil representation
in UTC, using the fixed proleptic Gregorian calendar.  Sub-second precision
is below the civil-time granularity and is dropped. -/
def epochMsToCivil (t : Int) : CivilTime :=
  let days := t / 86400000
  let rem := t % 86400000
  let ymd := civilFromDays days
  { year := ymd.1, month := ymd.2.1, day := ymd.2.2,
    hour := rem / 3600000, minute := rem % 3600000 / 60000,
    second := rem % 60000 / 1000 }

/-- Encode a civil time as an instant (epoch milliseconds), reading the
components as UTC. -/
def civilToEpochMs (c : CivilTime) : Int :=
  daysFromCivil c.year c.month c.day * 86400000
    + c.hour * 3600000 + c.minute * 60000 + c.second * 1000

/-- Error taxonomy of the conversion engine (spec section 7). -/
inductive EngineError where
  | unknownZone
  | invalidCivilTime
deriving DecidableEq, Repr

deriving instance DecidableEq for Except

/-- Modelled from the spec: a zone's UTC-offset rules, as consumed from the
IANA tzdb collaborator (not part of the repository's source).  `std` is the
standard offset in minutes, `dst` the daylight offset; the daylight offset
applies on instants in `[spring, fall)`.  A zone with no DST has
`std = dst` (and an empty daylight window). -/
structure ZoneRules where
  std : Int
  dst : Int
  spring : Int
  fall : Int
deriving DecidableEq, Repr

/-- Offset (minutes from UTC) of a zone at an instant. -/
def offsetAt (r : ZoneRules) (t : Int) : Int :=
  if r.spring ≤ t ∧ t < r.fall then r.dst else r.std

/-- Instant of the 2024 spring-forward transition of America/Toronto
(2024-03-10T07:00:00Z, local clocks jump 02:00 EST to 03:00 EDT). -/
def torontoSpring2024 : Int := 1710054000000

/-- Instant of the 2024 fall-back transition of America/Toronto
(2024-11-03T06:00:00Z, local clocks fall 02:00 EDT to 01:00 EST). -/
def torontoFall2024 : Int := 1730613600000

/-- Modelled from the spec: the zone-rule database the engine resolves
against (the repository delegates this to Luxon and the IANA tzdb, which is
not in the source tree).  Representative zones: UTC (fixed 0), Asia/Kolkata
(fixed +330, a non-whole-hour offset with no DST), and America/Toronto
(standard -300, daylight -240, with its 2024 transition instants). -/
def zoneRules (name : String) : Option ZoneRules :=
  if name = "UTC" then some ⟨0, 0, 0, 0⟩
  else if name = "Asia/Kolkata" then some ⟨330, 330, 0, 0⟩
  else if name = "America/Toronto" then
    some ⟨-300, -240, torontoSpring2024, torontoFall2024⟩
  else none

/-- Modelled from the spec: `offsetOf(zone, at)` resolves a zone's offset at
an instant; a zone identifier absent from the catalog fails with
`UnknownZoneError`. -/
def offsetOf (zone : String) (t : Int) : Except EngineError Int :=
  match zoneRules zone with
  | none => .error .unknownZone
  | some r => .ok (offsetAt r t)

/-- Interpretation core on raw milliseconds: resolve a provisional offset at
the civil value read as UTC, refine once, re-check, and in the unresolvable
(spring-forward gap) case shift the wall clock forward across the
transition; the Bool marks the gap adjustment. -/
def interpretMs (r : ZoneRules) (x : Int) : Int × Bool :=
  let o1 := offsetAt r x
  let refined := x - o1 * 60000
  let o2 := offsetAt r refined
  if o2 = o1 then (refined, false)
  else
    let refined2 := x - o2 * 60000
    let o3 := offsetAt r refined2
    if o3 = o2 then (refined2, false)
    else (x - min o2 o3 * 60000, true)

/-- Modelled from the spec: `toInstant(civil, zone)` interprets a civil time
as wall-clock time in the zone.  Calendar validity is checked before any
zone resolution; the returned Bool is the non-existent-local-time-adjusted
condition. -/
def toInstant (civil : CivilTime) (zone : String) : Except EngineError (Int × Bool) :=
  if isValidCivil civil then
    match zoneRules zone with
    | none => .error .unknownZone
    | some r => .ok (interpretMs r (civilToEpochMs civil))
  else .error .invalidCivilTime

/-- Modelled from the spec: `project(instant, zone)` resolves the zone's
offset at the instant, adds it, and decomposes in the proleptic Gregorian
calendar. -/
def project (t : Int) (zone : String) : Except EngineError (CivilTime × Int) :=
  match zoneRules zone with
  | none => .error .unknownZone
  | some r =>
    let o := offsetAt r t
    .ok (epochMsToCivil (t + o * 60000), o)

/-- The fall-back overlap window of a zone: the repeated civil-time range
just after the fall transition. -/
def inOverlap (r : ZoneRules) (t : Int) : Prop :=
  r.fall ≤ t ∧ t < r.fall + (r.dst - r.std) * 60000

instance (r : ZoneRules) (t : Int) : Decidable (inOverlap r t) := by
  unfold inOverlap; infer_instance

/-- The spring-forward gap of a zone on the wall-clock side: the skipped
civil readings, as their epoch encodings.  At the spring transition instant
local clocks jump from the reading `spring + std` minutes to the reading
`spring + dst` minutes, so the readings in between exist in no instant's
projection (for Toronto 2024: 02:00 to 03:00 local on March 10).  Empty
when `std = dst`. -/
def inGap (r : ZoneRules) (x : Int) : Prop :=
  r.spring + r.std * 60000 ≤ x ∧ x < r.spring + r.dst * 60000

instance (r : ZoneRules) (x : Int) : Decidable (inGap r x) := by
  unfold inGap; infer_instance

/-- The fall-back overlap of a zone on the wall-clock side: the repeated
civil readings, as their epoch encodings.  At the fall transition instant
local clocks fall from the reading `fall + dst` minutes back to the reading
`fall + std` minutes, so the readings in between occur at two distinct
instants (for Toronto 2024: 01:00 to 02:00 local on November 3).  Empty
when `std = dst`. -/
def inOverlapCivil (r : ZoneRules) (x : Int) : Prop :=
  r.fall + r.std * 60000 ≤ x ∧ x < r.fall + r.dst * 60000

instance (r : ZoneRules) (x : Int) : Decidable (inOverlapCivil r x) := by
  unfold inOverlapCivil; infer_instance

/-- The hard-coded fallback zone catalog of `src/App.js`. -/
def COMMON_TIMEZONES : List String := [
  "America/Anchorage", "America/Chicago", "America/Denver", "America/Edmonton",
  "America/Halifax", "America/Los_Angeles", "America/Mexico_City", "America/New_York",
  "America/Phoenix", "America/Toronto", "America/Vancouver", "America/Winnipeg",
  "America/Bogota", "America/Sao_Paulo",
  "Atlantic/Reykjavik", "Europe/Dublin", "Europe/Lisbon", "Europe/London",
  "Europe/Madrid", "Europe/Paris", "Europe/Berlin", "Europe/Rome",
  "Europe/Stockholm", "Europe/Athens", "Europe/Helsinki", "Europe/Moscow",
  "Africa/Cairo", "Africa/Johannesburg",
  "Asia/Dubai", "Asia/Kolkata", "Asia/Karachi", "Asia/Bangkok",
  "Asia/Singapore", "Asia/Hong_Kong", "Asia/Tokyo", "Asia/Seoul",
  "Asia/Shanghai", "Australia/Perth", "Australia/Adelaide", "Australia/Sydney",
  "Pacific/Auckland"]

/-- `getAllTimezones` of `src/App.js`: prefer the runtime-supplied canonical
list when it exists and is non-empty, otherwise fall back to the hard-coded
catalog.  The runtime's answer (possibly absent) is the argument. -/
def getAllTimezones (sup : Option (List String)) : List String :=
  match sup with
  | some l => if l.length ≠ 0 then l else COMMON_TIMEZONES
  | none => COMMON_TIMEZONES

/-- JavaScript `padStart(2, "0")`: left-pad with zeros to length two. -/
def pad2 (s : String) : String :=
  if s.length < 2 then String.mk (List.replicate (2 - s.length) '0') ++ s else s

/-- `formatOffset` of `src/App.js`: resolve the zone's offset at the instant
and render it as UTC, a sign, and zero-padded hours and minutes.  The
source delegates offset resolution to Luxon; here it goes through the
spec-modelled `offsetOf`, whose failure propagates. -/
def formatOffset (zone : String) (t : Int) : Except EngineError String :=
  (offsetOf zone t).map fun offsetMinutes =>
    let sign := if 0 ≤ offsetMinutes then "+" else "-"
    let abs := offsetMinutes.natAbs
    let hh := pad2 (toString (abs / 60))
    let mm := pad2 (toString (abs % 60))
    "UTC" ++ sign ++ hh ++ ":" ++ mm

/-- JavaScript `toLowerCase` on the ASCII zone identifiers. -/
def toLowerStr (s : String) : String := ⟨s.data.map Char.toLower⟩

/-- The whitespace class trimmed by JavaScript `trim` (ASCII part). -/
def isJsWhitespace (c : Char) : Bool :=
  c = ' ' || c = '\t' || c = '\n' || c = '\r' || c = '\x0b' || c = '\x0c'

/-- Drop leading whitespace. -/
def trimLeftL (l : List Char) : List Char := l.dropWhile isJsWhitespace

/-- Drop trailing whitespace. -/
def trimRightL (l : List Char) : List Char :=
  (l.reverse.dropWhile isJsWhitespace).reverse

/-- JavaScript `trim`: drop whitespace from both ends. -/
def trimString (s : String) : String := ⟨trimRightL (trimLeftL s.data)⟩

/-- Does `needle` occur at the head of `hay`? -/
def startsWithList : List Char → List Char → Bool
  | _, [] => true
  | [], _ :: _ => false
  | a :: as, b :: bs => a == b && startsWithList as bs

/-- JavaScript `includes`: does `needle` occur contiguously in `hay`? -/
def hasSubstrList : List Char → List Char → Bool
  | [], needle => needle.isEmpty
  | a :: as, needle => startsWithList (a :: as) needle || hasSubstrList as needle

/-- Substring containment on strings. -/
def containsSubstr (s q : String) : Bool := hasSubstrList s.data q.data

/-- `filteredZones` of `src/App.js`: trim and lowercase the query; an empty
trimmed query returns the whole list, otherwise keep the zones whose
lowercased identifier contains the query. -/
def filteredZones (allZones : List String) (filter : String) : List String :=
  let q := toLowerStr (trimString filter)
  if q = "" then allZones
  else allZones.filter fun z => containsSubstr (toLowerStr z) q

/-- The catalog filter as the specification words it: exactly the entries
whose identifier contains the query as a case-insensitive substring, in
catalog order (stated for comparison with `filteredZones`). -/
def specFilter (allZones : List String) (q : String) : List String :=
  allZones.filter fun z => containsSubstr (toLowerStr z) (toLowerStr q)

/-- A shifted year spans at most 366 days. -/
theorem dys_step (y : Int) : dys (y + 1) - dys y ≤ 366 := by
  simp only [dys]; omega

/-- Reconstruction core: once the year of era `yoe`, day of year `doy`, and
the month/day decomposition are fixed by their defining equations, encoding
them again recovers `era * 146097 + doe - 719468`. -/
theorem daysFromCivil_eq_pieces (era doe yoe doy mp d m : Int)
    (h0 : 0 ≤ yoe) (h1 : yoe ≤ 399)
    (hdoy : doy = doe - dys yoe)
    (hdoy0 : 0 ≤ doy) (hdoy1 : doy ≤ 365)
    (hmp : mp = (5 * doy + 2) / 153)
    (hd : d = doy - (153 * mp + 2) / 5 + 1)
    (hm : m = if mp < 10 then mp + 3 else mp - 9) :
    daysFromCivil (if m ≤ 2 then yoe + era * 400 + 1 else yoe + era * 400) m d
      = era * 146097 + doe - 719468 := by
  simp only [dys] at hdoy
  have hmpb : 0 ≤ mp ∧ mp ≤ 11 := by omega
  have hyq : (yoe + era * 400) / 400 = era := by omega
  by_cases h10 : mp < 10
  · have hm' : m = mp + 3 := by rw [hm, if_pos h10]
    have hmod : (m + 9) % 12 = mp := by omega
    simp only [daysFromCivil]
    split_ifs <;> omega
  · have hm' : m = mp - 9 := by rw [hm, if_neg h10]
    have hmod : (m + 9) % 12 = mp := by omega
    simp only [daysFromCivil]
    split_ifs <;> omega

/-- Re-encoding the date produced by `civilFromDays` yields the original day
count: the day-count decomposition is a bijection onto valid dates. -/
theorem daysFromCivil_civilFromDays (z : Int) :
    daysFromCivil (civilFromDays z).1 (civilFromDays z).2.1 (civilFromDays z).2.2 = z := by
  simp only [civilFromDays]
  set z' := z + 719468 with hz'
  set era := z' / 146097 with hera
  set doe := z' - era * 146097 with hdoe
  set y1 := doe / 366 with hy1
  have hz : era * 146097 + doe - 719468 = z := by omega
  by_cases hc : dys (y1 + 1) ≤ doe
  · rw [if_pos hc]
    simp only [dys] at hc
    refine Eq.trans (daysFromCivil_eq_pieces era doe (y1 + 1) (doe - dys (y1 + 1))
      _ _ _ (by omega) (by omega)
      (by simp only [dys])
      (by simp only [dys]; omega) (by simp only [dys]; omega)
      rfl rfl rfl) hz
  · rw [if_neg hc]
    simp only [dys, not_le] at hc
    refine Eq.trans (daysFromCivil_eq_pieces era doe y1 (doe - dys y1)
      _ _ _ (by omega) (by omega)
      (by simp only [dys])
      (by simp only [dys]; omega)
      (by have hstep := dys_step y1; simp only [dys] at hstep ⊢; omega)
      rfl rfl rfl) hz

/-- One shifted year adds 366 days exactly when the shifted year ends in a
leap year (Gregorian rule on the year of era). -/
theorem dys_step_leap (y : Int) (h : dys (y + 1) - dys y = 366) :
    (y + 1) % 4 = 0 ∧ ((y + 1) % 100 ≠ 0 ∨ (y + 1) % 400 = 0) := by
  simp only [dys] at h; omega

/-- Boolean leap test unfolded to its arithmetic characterisation. -/
theorem isLeap_iff (y : Int) :
    isLeap y = true ↔ (y % 4 = 0 ∧ (y % 100 ≠ 0 ∨ y % 400 = 0)) := by
  simp [isLeap, Bool.and_eq_true, Bool.or_eq_true, beq_iff_eq, bne_iff_ne]

/-- Range core: the month/day produced from a bracketed day of year always
form a calendar-valid date. -/
theorem civilFromDays_bounds_pieces (era yoe doy mp d m : Int)
    (h0 : 0 ≤ yoe) (h1 : yoe ≤ 399)
    (hdoy0 : 0 ≤ doy) (hdoy1 : doy ≤ 365)
    (hleap : doy = 365 → (yoe + 1) % 4 = 0 ∧ ((yoe + 1) % 100 ≠ 0 ∨ (yoe + 1) % 400 = 0))
    (hmp : mp = (5 * doy + 2) / 153)
    (hd : d = doy - (153 * mp + 2) / 5 + 1)
    (hm : m = if mp < 10 then mp + 3 else mp - 9) :
    1 ≤ m ∧ m ≤ 12 ∧ 1 ≤ d ∧
      d ≤ daysInMonth (if m ≤ 2 then yoe + era * 400 + 1 else yoe + era * 400) m := by
  have hmp0 : 0 ≤ mp := by omega
  have hmp1 : mp ≤ 11 := by omega
  by_cases h10 : mp < 10
  · have hm' : m = mp + 3 := by rw [hm, if_pos h10]
    have hmne : ¬ (m ≤ 2) := by omega
    rw [if_neg hmne]
    refine ⟨by omega, by omega, by omega, ?_⟩
    interval_cases mp <;> simp only [daysInMonth] <;> split_ifs <;> omega
  · have hm' : m = mp - 9 := by rw [hm, if_neg h10]
    have hmle : m ≤ 2 := by omega
    rw [if_pos hmle]
    refine ⟨by omega, by omega, by omega, ?_⟩
    by_cases hm2 : m = 2
    · have hmp11 : mp = 11 := by omega
      by_cases hL : isLeap (yoe + era * 400 + 1) = true
      · simp only [daysInMonth, if_pos hm2, hL, if_true]
        omega
      · simp only [daysInMonth, if_pos hm2, hL, if_false]
        rw [isLeap_iff] at hL
        by_cases h365 : doy = 365
        · exact absurd (hleap h365) (by omega)
        · omega
    · have hmp10 : mp = 10 := by omega
      have hm1 : m = 1 := by omega
      simp only [daysInMonth]
      split_ifs <;> omega

/-- The date produced by `civilFromDays` is always calendar-valid. -/
theorem civilFromDays_bounds (z : Int) :
    1 ≤ (civilFromDays z).2.1 ∧ (civilFromDays z).2.1 ≤ 12 ∧
    1 ≤ (civilFromDays z).2.2 ∧
    (civilFromDays z).2.2 ≤ daysInMonth (civilFromDays z).1 (civilFromDays z).2.1 := by
  simp only [civilFromDays]
  set z' := z + 719468 with hz'
  set era := z' / 146097 with hera
  set doe := z' - era * 146097 with hdoe
  set y1 := doe / 366 with hy1
  by_cases hc : dys (y1 + 1) ≤ doe
  · rw [if_pos hc]
    simp only [dys] at hc
    refine civilFromDays_bounds_pieces era (y1 + 1) (doe - dys (y1 + 1))
      _ _ _ (by omega) (by omega)
      (by simp only [dys]; omega) (by simp only [dys]; omega)
      (fun h365 => dys_step_leap (y1 + 1) (by
        have hstep := dys_step (y1 + 1)
        simp only [dys] at hstep h365 ⊢
        omega)) rfl rfl rfl
  · rw [if_neg hc]
    simp only [dys, not_le] at hc
    refine civilFromDays_bounds_pieces era y1 (doe - dys y1)
      _ _ _ (by omega) (by omega)
      (by simp only [dys]; omega)
      (by have hstep := dys_step y1; simp only [dys] at hstep ⊢; omega)
      (fun h365 => dys_step_leap y1 (by
        have hstep := dys_step y1
        simp only [dys] at hstep h365 ⊢
        omega)) rfl rfl rfl

/-- Whole-second instants survive the civil decomposition exactly. -/
theorem civilToEpochMs_epochMsToCivil (t : Int) (h : t % 1000 = 0) :
    civilToEpochMs (epochMsToCivil t) = t := by
  simp only [epochMsToCivil, civilToEpochMs]
  rw [daysFromCivil_civilFromDays]
  omega

/-- The civil decomposition of any instant is calendar-valid. -/
theorem isValidCivil_epochMsToCivil (t : Int) :
    isValidCivil (epochMsToCivil t) = true := by
  have hb := civilFromDays_bounds (t / 86400000)
  simp only [epochMsToCivil, isValidCivil]
  simp only [Bool.and_eq_true, decide_eq_true_eq]
  refine ⟨⟨⟨⟨⟨⟨⟨⟨⟨?_, ?_⟩, ?_⟩, ?_⟩, ?_⟩, ?_⟩, ?_⟩, ?_⟩, ?_⟩, ?_⟩ <;>
    first
      | exact hb.1
      | exact hb.2.1
      | exact hb.2.2.1
      | exact hb.2.2.2
      | omega

/-- Sanity cross-check: the Toronto transition constants agree with the
calendar encoder on their documented civil readings. -/
theorem toronto_constants_check :
    torontoSpring2024 = civilToEpochMs ⟨2024, 3, 10, 7, 0, 0⟩ ∧
    torontoFall2024 = civilToEpochMs ⟨2024, 11, 3, 6, 0, 0⟩ := by
  constructor <;> rfl

/-- C5: for every civil time whose components do not form a valid calendar
date and every zone identifier (known or not), `toInstant` fails with
`InvalidCivilTimeError` before any zone resolution, and no converted result
is produced. -/
theorem toInstant_invalid_civil (c : CivilTime) (zone : String)
    (h : isValidCivil c = false) :
    toInstant c zone = Except.error EngineError.invalidCivilTime := by
  simp [toInstant, h]

/-- Witness for C5: day 31 of April 2024 is rejected, both in a known zone
and in an unknown one (showing the validity check precedes zone
resolution). -/
theorem toInstant_invalid_civil_witness :
    isValidCivil ⟨2024, 4, 31, 12, 0, 0⟩ = false ∧
    toInstant ⟨2024, 4, 31, 12, 0, 0⟩ "America/Toronto"
        = Except.error EngineError.invalidCivilTime ∧
    toInstant ⟨2024, 4, 31, 12, 0, 0⟩ "Not/AZone"
        = Except.error EngineError.invalidCivilTime :=
  ⟨by decide,
   toInstant_invalid_civil ⟨2024, 4, 31, 12, 0, 0⟩ "America/Toronto" (by decide),
   toInstant_invalid_civil ⟨2024, 4, 31, 12, 0, 0⟩ "Not/AZone" (by decide)⟩

/-- C6: for every zone identifier outside the zone-rule catalog and every
instant, offset resolution fails with `UnknownZoneError`, and so do the
formatter and the interpreter that depend on it; no offset or formatted
string is returned. -/
theorem offsetOf_unknown_zone (zone : String) (t : Int)
    (hz : zoneRules zone = none) :
    offsetOf zone t = Except.error EngineError.unknownZone ∧
    formatOffset zone t = Except.error EngineError.unknownZone ∧
    ∀ c : CivilTime, isValidCivil c = true →
      toInstant c zone = Except.error EngineError.unknownZone := by
  refine ⟨by simp [offsetOf, hz], by simp [formatOffset, offsetOf, hz, Except.map],
    fun c hc => ?_⟩
  simp [toInstant, hc, hz]

/-- Witness for C6 at a concrete unknown identifier. -/
theorem offsetOf_unknown_zone_witness :
    offsetOf "Mars/Olympus" 0 = Except.error EngineError.unknownZone ∧
    formatOffset "Mars/Olympus" 0 = Except.error EngineError.unknownZone ∧
    toInstant ⟨1970, 1, 1, 0, 0, 0⟩ "Mars/Olympus"
        = Except.error EngineError.unknownZone :=
  ⟨(offsetOf_unknown_zone "Mars/Olympus" 0 (by decide)).1,
   (offsetOf_unknown_zone "Mars/Olympus" 0 (by decide)).2.1,
   (offsetOf_unknown_zone "Mars/Olympus" 0 (by decide)).2.2
     ⟨1970, 1, 1, 0, 0, 0⟩ (by decide)⟩

/-- In the Toronto rules, the interpretation of every wall-clock reading in
the spring-forward gap fails to converge in two passes and shifts the
reading forward across the transition, flagging the adjustment. -/
theorem interpretMs_gap_toronto (x : Int)
    (h : inGap ⟨-300, -240, torontoSpring2024, torontoFall2024⟩ x) :
    interpretMs ⟨-300, -240, torontoSpring2024, torontoFall2024⟩ x
      = (x + 18000000, true) := by
  simp only [interpretMs, offsetAt, inGap, torontoSpring2024, torontoFall2024] at h ⊢
  split_ifs <;>
    first
      | (exfalso; omega)
      | (simp only [Prod.mk.injEq, eq_self_iff_true, and_true]; omega)

/-- In the Toronto rules, the interpretation of every wall-clock reading in
the fall-back overlap converges on the first pass, at the pre-transition
(daylight) offset, with no adjustment flag. -/
theorem interpretMs_overlap_toronto (x : Int)
    (h : inOverlapCivil ⟨-300, -240, torontoSpring2024, torontoFall2024⟩ x) :
    interpretMs ⟨-300, -240, torontoSpring2024, torontoFall2024⟩ x
      = (x + 14400000, false) := by
  simp only [interpretMs, offsetAt, inOverlapCivil, torontoSpring2024,
    torontoFall2024] at h ⊢
  split_ifs <;>
    first
      | (exfalso; omega)
      | (simp only [Prod.mk.injEq, eq_self_iff_true, and_true]; omega)

/-- C7: for every civil time that falls in a spring-forward gap of a zone
of the rule catalog, `toInstant` succeeds, marks the result with the
non-existent-local-time-adjusted condition, and resolves the reading with
the post-transition offset: the returned instant lies at or after the
transition, the zone's offset there is the daylight offset, and projecting
it back shows the wall clock shifted forward by the transition width (for
Toronto, 02:30 becomes 03:30 local). -/
theorem toInstant_gap_adjusted (z : String) (std dst spring fall : Int) (c : CivilTime)
    (hz : zoneRules z = some ⟨std, dst, spring, fall⟩) (hval : isValidCivil c = true)
    (hgap : inGap ⟨std, dst, spring, fall⟩ (civilToEpochMs c)) :
    toInstant c z = Except.ok (civilToEpochMs c - std * 60000, true) ∧
    spring ≤ civilToEpochMs c - std * 60000 ∧
    offsetAt ⟨std, dst, spring, fall⟩ (civilToEpochMs c - std * 60000) = dst ∧
    project (civilToEpochMs c - std * 60000) z
      = Except.ok (epochMsToCivil (civilToEpochMs c + (dst - std) * 60000), dst) := by
  have htoI : toInstant c z
      = Except.ok (interpretMs ⟨std, dst, spring, fall⟩ (civilToEpochMs c)) := by
    simp only [toInstant, hval, if_true, hz]
  have hproj : ∀ i : Int, project i z
      = Except.ok (epochMsToCivil (i + offsetAt ⟨std, dst, spring, fall⟩ i * 60000),
          offsetAt ⟨std, dst, spring, fall⟩ i) := by
    intro i; simp [project, hz]
  simp only [zoneRules] at hz
  split_ifs at hz with h1 h2 h3 <;>
    (injection hz with h; injection h with e1 e2 e3 e4; subst e1; subst e2; subst e3; subst e4)
  · exfalso; simp only [inGap] at hgap; omega
  · exfalso; simp only [inGap] at hgap; omega
  · have hgap' := hgap
    simp only [inGap, torontoSpring2024, torontoFall2024] at hgap'
    have hoff : offsetAt ⟨-300, -240, torontoSpring2024, torontoFall2024⟩
        (civilToEpochMs c - -300 * 60000) = -240 := by
      simp only [offsetAt, torontoSpring2024, torontoFall2024]
      rw [if_pos (by omega)]
    refine ⟨?_, ?_, hoff, ?_⟩
    · rw [htoI, interpretMs_gap_toronto _ hgap]
      simp only [Except.ok.injEq, Prod.mk.injEq, eq_self_iff_true, and_true]
      omega
    · simp only [torontoSpring2024]
      omega
    · rw [hproj, hoff]
      simp only [Except.ok.injEq, Prod.mk.injEq, eq_self_iff_true, and_true]
      exact congrArg epochMsToCivil (by omega)

/-- Witness for C7 at the spec's example, 2024-03-10T02:30:00 in
America/Toronto: the flagged instant is 1710055800000 (07:30Z), projecting
to 03:30 local post-transition at offset -240. -/
theorem toInstant_gap_adjusted_witness :
    toInstant ⟨2024, 3, 10, 2, 30, 0⟩ "America/Toronto"
        = Except.ok (1710055800000, true) ∧
    project 1710055800000 "America/Toronto"
        = Except.ok (⟨2024, 3, 10, 3, 30, 0⟩, -240) := by
  have h := toInstant_gap_adjusted "America/Toronto" (-300) (-240)
    torontoSpring2024 torontoFall2024 ⟨2024, 3, 10, 2, 30, 0⟩
    (by decide) (by decide) (by decide)
  have e : civilToEpochMs ⟨2024, 3, 10, 2, 30, 0⟩ - -300 * 60000
      = (1710055800000 : Int) := by decide
  constructor
  · have h1 := h.1
    rw [e] at h1
    exact h1
  · have h4 := h.2.2.2
    rw [e] at h4
    refine h4.trans ?_
    have e2 : epochMsToCivil (civilToEpochMs ⟨2024, 3, 10, 2, 30, 0⟩ + (-240 - -300) * 60000)
        = (⟨2024, 3, 10, 3, 30, 0⟩ : CivilTime) := by decide
    rw [e2]

/-- C8: for every civil time that occurs twice in a zone of the rule
catalog because of a fall-back transition, `toInstant` deterministically
returns the first occurrence: the returned instant is the earlier of the
two, lies strictly before the transition, carries the pre-transition
(daylight) offset, and both it and the later instant project to the very
same civil reading. -/
theorem toInstant_overlap_first (z : String) (std dst spring fall : Int) (c : CivilTime)
    (hz : zoneRules z = some ⟨std, dst, spring, fall⟩) (hval : isValidCivil c = true)
    (hov : inOverlapCivil ⟨std, dst, spring, fall⟩ (civilToEpochMs c)) :
    toInstant c z = Except.ok (civilToEpochMs c - dst * 60000, false) ∧
    civilToEpochMs c - dst * 60000 < civilToEpochMs c - std * 60000 ∧
    civilToEpochMs c - dst * 60000 < fall ∧
    offsetAt ⟨std, dst, spring, fall⟩ (civilToEpochMs c - dst * 60000) = dst ∧
    project (civilToEpochMs c - dst * 60000) z
      = Except.ok (epochMsToCivil (civilToEpochMs c), dst) ∧
    project (civilToEpochMs c - std * 60000) z
      = Except.ok (epochMsToCivil (civilToEpochMs c), std) := by
  have htoI : toInstant c z
      = Except.ok (interpretMs ⟨std, dst, spring, fall⟩ (civilToEpochMs c)) := by
    simp only [toInstant, hval, if_true, hz]
  have hproj : ∀ i : Int, project i z
      = Except.ok (epochMsToCivil (i + offsetAt ⟨std, dst, spring, fall⟩ i * 60000),
          offsetAt ⟨std, dst, spring, fall⟩ i) := by
    intro i; simp [project, hz]
  simp only [zoneRules] at hz
  split_ifs at hz with h1 h2 h3 <;>
    (injection hz with h; injection h with e1 e2 e3 e4; subst e1; subst e2; subst e3; subst e4)
  · exfalso; simp only [inOverlapCivil] at hov; omega
  · exfalso; simp only [inOverlapCivil] at hov; omega
  · have hov' := hov
    simp only [inOverlapCivil, torontoSpring2024, torontoFall2024] at hov'
    have hoff1 : offsetAt ⟨-300, -240, torontoSpring2024, torontoFall2024⟩
        (civilToEpochMs c - -240 * 60000) = -240 := by
      simp only [offsetAt, torontoSpring2024, torontoFall2024]
      rw [if_pos (by omega)]
    have hoff2 : offsetAt ⟨-300, -240, torontoSpring2024, torontoFall2024⟩
        (civilToEpochMs c - -300 * 60000) = -300 := by
      simp only [offsetAt, torontoSpring2024, torontoFall2024]
      rw [if_neg (by omega)]
    refine ⟨?_, by omega, ?_, hoff1, ?_, ?_⟩
    · rw [htoI, interpretMs_overlap_toronto _ hov]
      simp only [Except.ok.injEq, Prod.mk.injEq, eq_self_iff_true, and_true]
      omega
    · simp only [torontoFall2024]
      omega
    · rw [hproj, hoff1]
      simp only [Except.ok.injEq, Prod.mk.injEq, eq_self_iff_true, and_true]
      exact congrArg epochMsToCivil (by omega)
    · rw [hproj, hoff2]
      simp only [Except.ok.injEq, Prod.mk.injEq, eq_self_iff_true, and_true]
      exact congrArg epochMsToCivil (by omega)

/-- Witness for C8 at the spec's example, 2024-11-03T01:30:00 in
America/Toronto: the earlier occurrence 1730611800000 (05:30Z, offset -240)
is returned, and the later occurrence 1730615400000 (06:30Z, offset -300)
projects to the same civil reading. -/
theorem toInstant_overlap_first_witness :
    toInstant ⟨2024, 11, 3, 1, 30, 0⟩ "America/Toronto"
        = Except.ok (1730611800000, false) ∧
    project 1730611800000 "America/Toronto"
        = Except.ok (⟨2024, 11, 3, 1, 30, 0⟩, -240) ∧
    project 1730615400000 "America/Toronto"
        = Except.ok (⟨2024, 11, 3, 1, 30, 0⟩, -300) ∧
    (1730611800000 : Int) < 1730615400000 := by
  have h := toInstant_overlap_first "America/Toronto" (-300) (-240)
    torontoSpring2024 torontoFall2024 ⟨2024, 11, 3, 1, 30, 0⟩
    (by decide) (by decide) (by decide)
  have e1 : civilToEpochMs ⟨2024, 11, 3, 1, 30, 0⟩ - -240 * 60000
      = (1730611800000 : Int) := by decide
  have e2 : civilToEpochMs ⟨2024, 11, 3, 1, 30, 0⟩ - -300 * 60000
      = (1730615400000 : Int) := by decide
  have ec : epochMsToCivil (civilToEpochMs ⟨2024, 11, 3, 1, 30, 0⟩)
      = (⟨2024, 11, 3, 1, 30, 0⟩ : CivilTime) := by decide
  refine ⟨?_, ?_, ?_, by decide⟩
  · have h1 := h.1
    rw [e1] at h1
    exact h1
  · have h5 := h.2.2.2.2.1
    rw [e1, ec] at h5
    exact h5
  · have h6 := h.2.2.2.2.2
    rw [e2, ec] at h6
    exact h6

/-- C9: when the environment supplies no zone list, or an empty one, the
catalog falls back to the fixed hard-coded list of well-known zones, which
is non-empty, so catalog queries still succeed in the degraded mode. -/
theorem getAllTimezones_fallback :
    getAllTimezones none = COMMON_TIMEZONES ∧
    getAllTimezones (some []) = COMMON_TIMEZONES ∧
    COMMON_TIMEZONES ≠ [] ∧
    COMMON_TIMEZONES.length = 41 := by
  refine ⟨rfl, rfl, by decide, by decide⟩

/-- A zone with equal standard and daylight offsets resolves to that offset
at every instant. -/
theorem offsetAt_const (r : ZoneRules) (t : Int) (h : r.std = r.dst) :
    offsetAt r t = r.std := by
  unfold offsetAt; split_ifs <;> omega

/-- Interpreting the civil reading of an instant in a fixed-offset zone
converges on the first pass and returns the instant. -/
theorem interpretMs_fixed (r : ZoneRules) (t : Int) (h : r.std = r.dst) :
    interpretMs r (t + offsetAt r t * 60000) = (t, false) := by
  have ho : ∀ s, offsetAt r s = r.std := fun s => offsetAt_const r s h
  simp only [interpretMs, ho]
  split_ifs with h1
  · simp only [Prod.mk.injEq, eq_self_iff_true, and_true]
    omega
  · exact absurd trivial h1

/-- Interpreting the civil reading of an instant in the Toronto rules
returns the instant, for every instant outside the fall-back overlap
window. -/
theorem interpretMs_toronto (t : Int)
    (hov : ¬ inOverlap ⟨-300, -240, torontoSpring2024, torontoFall2024⟩ t) :
    interpretMs ⟨-300, -240, torontoSpring2024, torontoFall2024⟩
        (t + offsetAt ⟨-300, -240, torontoSpring2024, torontoFall2024⟩ t * 60000)
      = (t, false) := by
  simp only [interpretMs, offsetAt, inOverlap, torontoSpring2024, torontoFall2024] at hov ⊢
  split_ifs <;>
    first
      | (exfalso; omega)
      | (simp only [Prod.mk.injEq, eq_self_iff_true, and_true]; omega)

/-- C1: projecting an instant expressible as a civil time into any zone of
the rule catalog and interpreting the produced civil time back in the same
zone returns exactly the original instant, whenever the instant is not in
that zone's fall-back overlap window (the second zone plays no role in the
identity). -/
theorem project_toInstant_roundtrip (z1 z2 : String) (r1 r2 : ZoneRules) (t : Int)
    (hz1 : zoneRules z1 = some r1) (hz2 : zoneRules z2 = some r2)
    (hexp : t % 1000 = 0) (hov : ¬ inOverlap r1 t) :
    ∃ c o b, project t z1 = Except.ok (c, o) ∧ toInstant c z1 = Except.ok (t, b) := by
  refine ⟨epochMsToCivil (t + offsetAt r1 t * 60000), offsetAt r1 t, false,
    by simp [project, hz1], ?_⟩
  have hval := isValidCivil_epochMsToCivil (t + offsetAt r1 t * 60000)
  simp only [toInstant, hval, if_true, hz1]
  rw [civilToEpochMs_epochMsToCivil _ (by omega)]
  have hcore : interpretMs r1 (t + offsetAt r1 t * 60000) = (t, false) := by
    simp only [zoneRules] at hz1
    split_ifs at hz1 with h1 h2 h3
    · injection hz1 with h; subst h; exact interpretMs_fixed _ _ rfl
    · injection hz1 with h; subst h; exact interpretMs_fixed _ _ rfl
    · injection hz1 with h; subst h; exact interpretMs_toronto t hov
  rw [hcore]

/-- Witness for C1 at the concrete summer instant 2024-07-01T16:00:00Z and
the zone pair (America/Toronto, Asia/Kolkata). -/
theorem project_toInstant_roundtrip_witness :
    ∃ c o b, project 1719849600000 "America/Toronto" = Except.ok (c, o) ∧
      toInstant c "America/Toronto" = Except.ok (1719849600000, b) :=
  project_toInstant_roundtrip "America/Toronto" "Asia/Kolkata"
    ⟨-300, -240, torontoSpring2024, torontoFall2024⟩ ⟨330, 330, 0, 0⟩
    1719849600000 (by decide) (by decide) (by decide) (by decide)

/-- C4: for every known zone, `project` is total and deterministic (it
returns the offset-resolved civil decomposition for every instant), the
civil time it produces is calendar-valid, and for every instant expressible
at civil granularity the result re-encodes to exactly the input instant. -/
theorem project_total_preserves_instant (zone : String) (r : ZoneRules) (t : Int)
    (hz : zoneRules zone = some r) :
    project t zone = Except.ok (epochMsToCivil (t + offsetAt r t * 60000), offsetAt r t) ∧
    isValidCivil (epochMsToCivil (t + offsetAt r t * 60000)) = true ∧
    (t % 1000 = 0 →
      civilToEpochMs (epochMsToCivil (t + offsetAt r t * 60000)) - offsetAt r t * 60000 = t) := by
  refine ⟨by simp [project, hz], isValidCivil_epochMsToCivil _, fun h => ?_⟩
  rw [civilToEpochMs_epochMsToCivil _ (by omega)]
  ring

/-- Witness for C4 in Asia/Kolkata at 2024-07-01T16:00:00Z. -/
theorem project_total_preserves_instant_witness :
    project 1719849600000 "Asia/Kolkata"
        = Except.ok (epochMsToCivil (1719849600000 + offsetAt ⟨330, 330, 0, 0⟩ 1719849600000 * 60000),
            offsetAt ⟨330, 330, 0, 0⟩ 1719849600000) ∧
    civilToEpochMs (epochMsToCivil (1719849600000 + offsetAt ⟨330, 330, 0, 0⟩ 1719849600000 * 60000))
        - offsetAt ⟨330, 330, 0, 0⟩ 1719849600000 * 60000 = 1719849600000 :=
  ⟨(project_total_preserves_instant "Asia/Kolkata" ⟨330, 330, 0, 0⟩ 1719849600000 (by decide)).1,
   (project_total_preserves_instant "Asia/Kolkata" ⟨330, 330, 0, 0⟩ 1719849600000 (by decide)).2.2
     (by decide)⟩

/-- The rule catalog contains exactly three rule shapes. -/
theorem zoneRules_cases (zone : String) (r : ZoneRules) (hz : zoneRules zone = some r) :
    r = ⟨0, 0, 0, 0⟩ ∨ r = ⟨330, 330, 0, 0⟩ ∨
    r = ⟨-300, -240, torontoSpring2024, torontoFall2024⟩ := by
  simp only [zoneRules] at hz
  split_ifs at hz <;>
    first
      | (left; injection hz with h; exact h.symm)
      | (right; left; injection hz with h; exact h.symm)
      | (right; right; injection hz with h; exact h.symm)

/-- C3: `formatOffset` renders the resolved offset as `UTC±HH:MM` with the
documented sign convention and two-digit zero padding: Asia/Kolkata's
half-hour offset renders `UTC+05:30` at every instant, UTC renders
`UTC+00:00` at every instant, a negative offset renders with `-` (Toronto
in winter), and every string the formatter returns has the exact nine
character `UTC±HH:MM` shape. -/
theorem formatOffset_spec :
    (∀ t : Int, formatOffset "Asia/Kolkata" t = Except.ok "UTC+05:30") ∧
    (∀ t : Int, formatOffset "UTC" t = Except.ok "UTC+00:00") ∧
    (∀ t : Int, t < torontoSpring2024 →
      formatOffset "America/Toronto" t = Except.ok "UTC-05:00") ∧
    (∀ (zone : String) (t : Int) (s : String),
      formatOffset zone t = Except.ok s → s.length = 9) := by
  refine ⟨fun t => ?_, fun t => ?_, fun t ht => ?_, fun zone t s h => ?_⟩
  · have hz : zoneRules "Asia/Kolkata" = some ⟨330, 330, 0, 0⟩ := by decide
    simp only [formatOffset, offsetOf, hz, Except.map]
    rw [offsetAt_const _ _ rfl]
    rfl
  · have hz : zoneRules "UTC" = some ⟨0, 0, 0, 0⟩ := by decide
    simp only [formatOffset, offsetOf, hz, Except.map]
    rw [offsetAt_const _ _ rfl]
    rfl
  · have hz : zoneRules "America/Toronto"
        = some ⟨-300, -240, torontoSpring2024, torontoFall2024⟩ := by decide
    have ht' : t < (1710054000000 : Int) := by
      simpa [torontoSpring2024] using ht
    have ho : offsetAt ⟨-300, -240, torontoSpring2024, torontoFall2024⟩ t = -300 := by
      simp only [offsetAt, torontoSpring2024, torontoFall2024]
      rw [if_neg (by omega)]
    simp only [formatOffset, offsetOf, hz, Except.map, ho]
    rfl
  · simp only [formatOffset, offsetOf] at h
    rcases hzc : zoneRules zone with _ | r
    · rw [hzc] at h
      simp [Except.map] at h
    · rw [hzc] at h
      rcases zoneRules_cases zone r hzc with rfl | rfl | rfl
      · simp only [Except.map] at h
        rw [offsetAt_const _ _ rfl] at h
        injection h with h'
        rw [← h']
        decide
      · simp only [Except.map] at h
        rw [offsetAt_const _ _ rfl] at h
        injection h with h'
        rw [← h']
        decide
      · simp only [Except.map, offsetAt] at h
        split_ifs at h <;> (injection h with h'; rw [← h']; decide)

/-- Witness for C3: concrete renderings in the three zones and the length
of a returned string. -/
theorem formatOffset_spec_witness :
    formatOffset "Asia/Kolkata" 1719849600000 = Except.ok "UTC+05:30" ∧
    formatOffset "UTC" 0 = Except.ok "UTC+00:00" ∧
    formatOffset "America/Toronto" 0 = Except.ok "UTC-05:00" ∧
    ("UTC+05:30" : String).length = 9 :=
  ⟨formatOffset_spec.1 1719849600000, formatOffset_spec.2.1 0,
   formatOffset_spec.2.2.1 0 (by decide),
   formatOffset_spec.2.2.2 "Asia/Kolkata" 1719849600000 "UTC+05:30"
     (formatOffset_spec.1 1719849600000)⟩

/-- Dropping a satisfied leading segment twice is the same as once. -/
theorem dropWhile_dropWhile (p : Char → Bool) (l : List Char) :
    (l.dropWhile p).dropWhile p = l.dropWhile p := by
  induction l with
  | nil => rfl
  | cons a as ih =>
    by_cases h : p a
    · simpa [List.dropWhile_cons, h] using ih
    · simp [List.dropWhile_cons, h]

/-- A kept final element survives a front-trim. -/
theorem dropWhile_append_singleton (p : Char → Bool) (a : Char) (h : p a = false)
    (l : List Char) :
    (l ++ [a]).dropWhile p = l.dropWhile p ++ [a] := by
  induction l with
  | nil => simp [List.dropWhile_cons, h]
  | cons b bs ih =>
    by_cases hb : p b
    · simpa [List.dropWhile_cons, hb] using ih
    · simp [List.dropWhile_cons, hb]

/-- Dropping a leading segment never lengthens a list. -/
theorem dropWhile_length_le (p : Char → Bool) (l : List Char) :
    (l.dropWhile p).length ≤ l.length := by
  induction l with
  | nil => simp
  | cons a as ih =>
    by_cases h : p a <;> simp [List.dropWhile_cons, h] <;> omega

/-- A back-trim keeps a non-whitespace head. -/
theorem trimRightL_cons (a : Char) (h : isJsWhitespace a = false) (l : List Char) :
    trimRightL (a :: l) = a :: trimRightL l := by
  unfold trimRightL
  rw [List.reverse_cons, dropWhile_append_singleton _ _ h, List.reverse_append]
  rfl

/-- The back-trim is idempotent. -/
theorem trimRightL_idem (l : List Char) :
    trimRightL (trimRightL l) = trimRightL l := by
  unfold trimRightL
  rw [List.reverse_reverse, dropWhile_dropWhile]

/-- The front-trim is idempotent. -/
theorem trimLeftL_idem (l : List Char) :
    trimLeftL (trimLeftL l) = trimLeftL l :=
  dropWhile_dropWhile _ _

/-- A back-trim preserves front-trimmed-ness. -/
theorem trimLeftL_trimRightL (l : List Char) (hl : trimLeftL l = l) :
    trimLeftL (trimRightL l) = trimRightL l := by
  cases l with
  | nil => rfl
  | cons a as =>
    unfold trimLeftL at hl ⊢
    by_cases h : isJsWhitespace a
    · exfalso
      rw [List.dropWhile_cons_of_pos h] at hl
      have := congrArg List.length hl
      have hle := dropWhile_length_le isJsWhitespace as
      simp at this
      omega
    · rw [trimRightL_cons a (by simpa using h)]
      exact List.dropWhile_cons_of_neg h

/-- JavaScript `trim` is idempotent. -/
theorem trimString_idem (s : String) : trimString (trimString s) = trimString s := by
  unfold trimString
  refine congrArg String.mk ?_
  show trimRightL (trimLeftL (trimRightL (trimLeftL s.data))) = trimRightL (trimLeftL s.data)
  rw [trimLeftL_trimRightL _ (trimLeftL_idem _), trimRightL_idem]

/-- A query of whitespace only trims to the empty string. -/
theorem trimString_eq_empty_of_ws (q : String)
    (h : ∀ c ∈ q.data, isJsWhitespace c = true) :
    trimString q = "" := by
  unfold trimString trimLeftL
  have hd : q.data.dropWhile isJsWhitespace = [] := List.dropWhile_eq_nil_iff.mpr h
  rw [hd]
  rfl

/-- Lowercasing preserves emptiness. -/
theorem toLowerStr_eq_empty_iff (s : String) : toLowerStr s = "" ↔ s = "" := by
  cases s with
  | mk l =>
    constructor
    · intro h
      have h' : l.map Char.toLower = ([] : List Char) := congrArg String.data h
      have hl : l = [] := List.map_eq_nil_iff.mp h'
      rw [hl]
    · intro h
      rw [h]
      rfl

/-- C10: the catalog filter trims its query before matching: filtering with
any query equals filtering with the trimmed query, and a query of
whitespace only behaves exactly like the empty query, returning the full
list unchanged. -/
theorem filteredZones_trim (allZones : List String) (q : String) :
    filteredZones allZones q = filteredZones allZones (trimString q) ∧
    ((∀ c ∈ q.data, isJsWhitespace c = true) → filteredZones allZones q = allZones) := by
  constructor
  · unfold filteredZones
    rw [trimString_idem]
  · intro hws
    unfold filteredZones
    rw [trimString_eq_empty_of_ws q hws]
    rfl

/-- Witness for C10 at a two-space query over the fallback catalog. -/
theorem filteredZones_trim_witness :
    filteredZones COMMON_TIMEZONES "  " = COMMON_TIMEZONES ∧
    filteredZones COMMON_TIMEZONES "  " = filteredZones COMMON_TIMEZONES (trimString "  ") :=
  ⟨(filteredZones_trim COMMON_TIMEZONES "  ").2 (by decide),
   (filteredZones_trim COMMON_TIMEZONES "  ").1⟩

/-- C2 counterexample: on the fallback catalog and the one-space query, the
filter returns the whole catalog, while the entries containing the query as
a case-insensitive substring are none at all; so the filter does not return
exactly the matching entries for every query string. -/
theorem filteredZones_not_specFilter :
    filteredZones COMMON_TIMEZONES " " = COMMON_TIMEZONES ∧
    specFilter COMMON_TIMEZONES " " = [] ∧
    COMMON_TIMEZONES ≠ ([] : List String) := by
  refine ⟨rfl, by decide, by decide⟩

/-- C2 as amended: the filter matches against the trimmed query.  When the
query trims to empty the full list is returned unchanged; otherwise the
result is exactly the entries whose identifier contains the trimmed query
as a case-insensitive substring, in catalog order. -/
theorem filteredZones_matches_trimmed (allZones : List String) (q : String) :
    (trimString q = "" → filteredZones allZones q = allZones) ∧
    (trimString q ≠ "" → filteredZones allZones q = specFilter allZones (trimString q)) := by
  constructor
  · intro h
    unfold filteredZones
    rw [h]
    rfl
  · intro h
    unfold filteredZones specFilter
    rw [if_neg (fun hc => h ((toLowerStr_eq_empty_iff (trimString q)).mp hc))]

/-- Witness for C2's amended statement: a padded query matches like its
trimmed form, and the empty query returns the full catalog. -/
theorem filteredZones_matches_trimmed_witness :
    trimString " toronto " = "toronto" ∧
    filteredZones COMMON_TIMEZONES " toronto "
        = specFilter COMMON_TIMEZONES (trimString " toronto ") ∧
    filteredZones COMMON_TIMEZONES "" = COMMON_TIMEZONES :=
  ⟨by decide,
   (filteredZones_matches_trimmed COMMON_TIMEZONES " toronto ").2 (by decide),
   (filteredZones_matches_trimmed COMMON_TIMEZONES "").1 (by decide)⟩

end TimeZoneApp
